import Mathlib

/-
  Verification of the egt project-journal parser (egtlib/egtparser.py).

  The Python source is shallowly embedded: its classes become structures,
  mutation becomes explicit state passing, exceptions become Except/Option
  values.  External collaborators (dateutil's date grammar, the email
  header parser, the Log container class) are modelled at their interface
  boundary, as marked by doc comments.
-/

namespace Egt

/-- Embedding of Python `datetime.datetime`: a plain record of calendar
and clock fields.  Validity of the fields is not enforced, matching the
dynamic checks of the Python library where they matter. -/
structure DateTime where
  year : Nat
  month : Nat
  day : Nat
  hour : Nat
  minute : Nat
  second : Nat
  microsecond : Nat
deriving DecidableEq, Repr

/-- Embedding of Python `datetime.time` as produced by `parsetime`. -/
structure Time where
  hour : Nat
  minute : Nat
  second : Nat
deriving DecidableEq, Repr

/-- Model of `d.replace(hour=0, minute=0, second=0, microsecond=0)`. -/
def midnightOf (d : DateTime) : DateTime :=
  { d with hour := 0, minute := 0, second := 0, microsecond := 0 }

/-- Gregorian leap-year test, as in Python's `calendar`/`datetime`. -/
def isLeap (y : Nat) : Bool :=
  y % 4 = 0 && (y % 100 != 0 || y % 400 = 0)

/-- Days in a month, as in Python's `datetime`. -/
def daysInMonth (y m : Nat) : Nat :=
  if m = 2 then (if isLeap y then 29 else 28)
  else if m = 4 || m = 6 || m = 9 || m = 11 then 30
  else 31

/-- Model of `dt + datetime.timedelta(days=1)`. -/
def addOneDay (d : DateTime) : DateTime :=
  if d.day < daysInMonth d.year d.month then { d with day := d.day + 1 }
  else if d.month < 12 then { d with month := d.month + 1, day := 1 }
  else { d with year := d.year + 1, month := 1, day := 1 }

/-- Lexicographic comparison of datetimes, as Python's `<` on them. -/
def dtLt (a b : DateTime) : Bool :=
  if a.year != b.year then a.year < b.year
  else if a.month != b.month then a.month < b.month
  else if a.day != b.day then a.day < b.day
  else if a.hour != b.hour then a.hour < b.hour
  else if a.minute != b.minute then a.minute < b.minute
  else if a.second != b.second then a.second < b.second
  else a.microsecond < b.microsecond

/-- Model of `datetime.datetime.combine(date, time)`: the date's calendar
fields with the time's clock fields (microsecond 0, as `datetime.time(h, m, 0)`
has none). -/
def combine (d : DateTime) (t : Time) : DateTime :=
  ⟨d.year, d.month, d.day, t.hour, t.minute, t.second, 0⟩

/-- Python regex `\s` / `str.isspace` character class (ASCII part). -/
def isPySpace (c : Char) : Bool :=
  c = ' ' || c = '\t' || c = '\n' || c = '\r' || c = '\x0b' || c = '\x0c'

/-- The two characters the indent scanner of
`annotate_with_indent_and_markers` treats as indentation. -/
def isIndentWS (c : Char) : Bool :=
  c = ' ' || c = '\t'

def isDigitC (c : Char) : Bool :=
  '0' ≤ c && c ≤ '9'

/-- Python `str.isspace()` extended to the blank test
`not l or l.isspace()`: true for the empty string and all-whitespace
strings. -/
def isBlank (s : String) : Bool :=
  s.data.all isPySpace

def strTake (s : String) (n : Nat) : String :=
  String.mk (s.data.take n)

def strDrop (s : String) (n : Nat) : String :=
  String.mk (s.data.drop n)

/-- Remove trailing characters satisfying `p` (used for `str.rstrip` and
for the `\s*$` tails of the regexps). -/
def dropTrailing (p : Char → Bool) (cs : List Char) : List Char :=
  (cs.reverse.dropWhile p).reverse

/-- Python `l.endswith(":")`: the last character is a colon. -/
def endsWithColon (s : String) : Bool :=
  s.data.getLast? = some ':'

/-- Python `str.rstrip()` with no argument: strip trailing whitespace. -/
def pyRstrip (s : String) : String :=
  String.mk (dropTrailing isPySpace s.data)

/-- Python `str.strip(chars)`: remove leading and trailing characters
belonging to `chars`. -/
def pyStrip (s : String) (chars : List Char) : String :=
  String.mk (dropTrailing (fun c => chars.contains c) (s.data.dropWhile (fun c => chars.contains c)))

/-- Digits-to-Nat conversion for `int(...)` on the digit strings the
regexps capture. -/
def digitsToNat (cs : List Char) : Nat :=
  cs.foldl (fun acc c => acc * 10 + (c.toNat - '0'.toNat)) 0

/-- Python `str.split(":")`: split on every colon, keeping empty pieces. -/
def splitOnColon (s : String) : List String :=
  go s.data [] where
  go : List Char → List Char → List String
  | [], cur => [String.mk cur.reverse]
  | c :: cs, cur =>
    if c = ':' then String.mk cur.reverse :: go cs []
    else go cs (c :: cur)

/-- Whitespace tokenisation (used by the model of the external date
grammar): maximal non-space runs, empty tokens dropped. -/
def wsTokens (s : String) : List String :=
  go s.data [] where
  go : List Char → List Char → List String
  | [], cur => if cur.isEmpty then [] else [String.mk cur.reverse]
  | c :: cs, cur =>
    if isPySpace c then
      (if cur.isEmpty then go cs [] else String.mk cur.reverse :: go cs [])
    else go cs (c :: cur)

/-- Model of `re.split(r"\s*,\s*", s)` as used on context-header text:
split at every comma, stripping the maximal whitespace runs adjacent to
each comma (but not whitespace at the ends of the whole string).  The
streaming implementation strips the trailing whitespace of a token when
its comma arrives, and skips whitespace directly after a comma. -/
def splitCommaWS (s : String) : List String :=
  go s.data false [] where
  go : List Char → Bool → List Char → List String
  | [], _, cur => [String.mk cur.reverse]
  | c :: cs, skipWS, cur =>
    if skipWS && isPySpace c then go cs true cur
    else if c = ',' then
      String.mk (cur.dropWhile isPySpace).reverse :: go cs true []
    else go cs false (c :: cur)

/-- Model of `Regexps.event_range` = `re.compile(r"\s*--\s*").search(s)`:
returns the span `(start, end)` of the leftmost match.  A match is a run
of whitespace, the two dashes, and a run of whitespace; the leftmost
match is anchored at the first occurrence of `--`, extended over the
maximal whitespace runs on both sides (greedy `\s*`). -/
def eventRangeSearch (s : String) : Option (Nat × Nat) :=
  go s.data 0 0 where
  go : List Char → Nat → Nat → Option (Nat × Nat)
  | '-' :: '-' :: rest, pos, wsrun =>
      some (pos - wsrun, pos + 2 + (rest.takeWhile isPySpace).length)
  | c :: cs, pos, wsrun =>
      go cs (pos + 1) (if isPySpace c then wsrun + 1 else 0)
  | [], _, _ => none

/-- Model of `Regexps.log_date.match` for
`^(?:(?P<year>\d{4})|-+\s*(?P<date>.+?))\s*$`, returning the value
`mo.group("date") or mo.group("year")` that `LogParser.parse` extracts.
The first alternative matches a 4-digit year followed only by trailing
whitespace.  The second needs a leading dash run; with Python's
backtracking (greedy `-+` and `\s*`, lazy `.+?`) the captured date is:
the text after the dashes and the whitespace run, trailing whitespace
stripped, when any remains; otherwise a single whitespace character when
the line is dashes followed by whitespace; otherwise `"-"` when the line
is two or more dashes and nothing else. -/
def logDateMatch (s : String) : Option String :=
  let cs := s.data
  if cs.length ≥ 4 && (cs.take 4).all isDigitC && (cs.drop 4).all isPySpace then
    some (String.mk (cs.take 4))
  else if cs.head? = some '-' then
    let d := (cs.takeWhile (fun c => c = '-')).length
    let w := ((cs.drop d).takeWhile isPySpace).length
    if d + w < cs.length then
      some (String.mk (dropTrailing isPySpace (cs.drop (d + w))))
    else if w ≥ 1 then
      some (String.mk (cs.drop (cs.length - 1)))
    else if d ≥ 2 then some "-"
    else none
  else none

/-- Tail of the `log_head` pattern after the head's colon:
`\s+(?P<start>\d+:\d+)-\s*(?P<end>\d+:\d+)?`.  Returns the captured
start and optional end time strings. -/
def logHeadTail (cs : List Char) : Option (String × Option String) :=
  let ws := cs.takeWhile isPySpace
  if ws.isEmpty then none else
  let r1 := cs.drop ws.length
  let d1 := r1.takeWhile isDigitC
  if d1.isEmpty then none else
  match r1.drop d1.length with
  | ':' :: r3 =>
    let d2 := r3.takeWhile isDigitC
    if d2.isEmpty then none else
    match r3.drop d2.length with
    | '-' :: r5 =>
      let r6 := r5.dropWhile isPySpace
      let start := String.mk (d1 ++ ':' :: d2)
      let d3 := r6.takeWhile isDigitC
      if d3.isEmpty then some (start, none) else
      match r6.drop d3.length with
      | ':' :: r8 =>
        let d4 := r8.takeWhile isDigitC
        if d4.isEmpty then some (start, none)
        else some (start, some (String.mk (d3 ++ ':' :: d4)))
      | _ => some (start, none)
    | _ => none
  | _ => none

/-- Scan for the lazily-chosen colon of the `log_head` date group: the
first colon position (at or after the initial element) whose tail
matches `logHeadTail`. -/
def findHeadColon : List Char → Nat → Option (Nat × String × Option String)
  | [], _ => none
  | c :: cs, pos =>
    if c = ':' then
      match logHeadTail cs with
      | some r => some (pos, r)
      | none => findHeadColon cs (pos + 1)
    else findHeadColon cs (pos + 1)

/-- Model of `Regexps.log_head.match` for
`^(?P<date>(?:\S| \d).*?):\s+(?P<start>\d+:\d+)-\s*(?P<end>\d+:\d+)?`,
returning the captured `(date, start, end)`.  The date group begins with
one non-space character, or with a space followed by a digit; its lazy
`.*?` extends it to the first colon whose tail parses. -/
def logHeadMatch (s : String) : Option (String × String × Option String) :=
  let cs := s.data
  match cs with
  | [] => none
  | c :: rest =>
    let initLen : Option Nat :=
      if ¬ isPySpace c then some 1
      else if c = ' ' then
        match rest with
        | d :: _ => if isDigitC d then some 2 else none
        | [] => none
      else none
    match initLen with
    | none => none
    | some n =>
      match findHeadColon (cs.drop n) n with
      | none => none
      | some (p, r) => some (String.mk (cs.take p), r)

/-- Model of `Regexps.meta_head.match` for `^\w.*:`: the line starts
with a word character (ASCII letter, digit or underscore here) and
contains a colon after it. -/
def metaHeadMatch (s : String) : Bool :=
  match s.data with
  | [] => false
  | c :: rest => (c.isAlphanum || c = '_') && rest.contains ':'

/-- ASCII lower-casing of one character (Python `str.lower` for the
ASCII range used by the header keys and month names). -/
def lowerChar (c : Char) : Char :=
  if 'A' ≤ c && c ≤ 'Z' then Char.ofNat (c.toNat + 32) else c

/-- ASCII `str.lower()`. -/
def strLower (s : String) : String :=
  String.mk (s.data.map lowerChar)

/-- English month names and three-letter abbreviations of the default
`dateutil.parser.parserinfo`, lower-cased. -/
def monthFromName (s : String) : Option Nat :=
  let t := strLower s
  let names := [("january", 1), ("february", 2), ("march", 3), ("april", 4),
    ("may", 5), ("june", 6), ("july", 7), ("august", 8), ("september", 9),
    ("october", 10), ("november", 11), ("december", 12)]
  match names.find? (fun p => p.1 = t || strTake p.1 3 = t) with
  | some p => some p.2
  | none => none

/-- Modelled from the spec: the external locale-configured date grammar
(`dateutil.parser.parse(s, default=..., parserinfo=...)`, §4.3/§6),
which is not part of this repository.  It is modelled for the token
shapes the spec and its examples exercise: a bare 4-digit year, a bare
1-2 digit day, an `H:MM` time of day, a month name, and the two-token
`<day> <month-name>` / `<month-name> <day>` phrases (English default
grammar).  Parsed fields override the default's fields, missing fields
inherit from the default; ungrammatical input (including an out-of-range
component) is a `ValueError`, i.e. `none`. -/
def dateutil_parse (s : String) (default : DateTime) : Option DateTime :=
  let validDay (d : Nat) (m : Nat) : Bool := 1 ≤ d && d ≤ daysInMonth default.year m
  match wsTokens s with
  | [t] =>
    let cs := t.data
    if cs.all isDigitC && cs.length = 4 then
      some { default with year := digitsToNat cs }
    else if cs.all isDigitC && (cs.length = 1 || cs.length = 2) then
      (if validDay (digitsToNat cs) default.month then
        some { default with day := digitsToNat cs } else none)
    else
      match splitOnColon t with
      | [hh, mm] =>
        if hh.data.all isDigitC && ¬ hh.data.isEmpty &&
            mm.data.all isDigitC && ¬ mm.data.isEmpty &&
            digitsToNat hh.data < 24 && digitsToNat mm.data < 60 then
          some { default with hour := digitsToNat hh.data, minute := digitsToNat mm.data }
        else none
      | _ =>
        match monthFromName t with
        | some m => if validDay default.day m then some { default with month := m } else none
        | none => none
  | [a, b] =>
    if a.data.all isDigitC && ¬ a.data.isEmpty && a.data.length ≤ 2 then
      match monthFromName b with
      | some m =>
        if validDay (digitsToNat a.data) m then
          some { default with month := m, day := digitsToNat a.data }
        else none
      | none => none
    else
      match monthFromName a with
      | some m =>
        if b.data.all isDigitC && ¬ b.data.isEmpty && b.data.length ≤ 2 &&
            validDay (digitsToNat b.data) m then
          some { default with month := m, day := digitsToNat b.data }
        else none
      | none => none
  | _ => none

/-- State of `EventParser`: the rolling default datetime.  The Python
object also stores the regexp repository, the language tag and the
parserinfo; the regexps are module-level functions here and the date
grammar is modelled for the default (English) locale, so only the
mutable `default` remains. -/
structure EventParser where
  default : DateTime
deriving DecidableEq, Repr

/-- `EventParser.__init__`: the default is
`datetime.datetime.now().replace(hour=0, minute=0, second=0, microsecond=0)`.
The ambient `now()` is passed in explicitly. -/
def EventParser.init (today : DateTime) : EventParser :=
  ⟨midnightOf today⟩

/-- `EventParser.parse(s, set_default)`: delegate to the external date
grammar with the rolling default; on success optionally move the default
to the parsed date at midnight; on `ValueError` return `None`.  Returns
the parsed value and the updated parser state. -/
def EventParser.parse (ep : EventParser) (s : String) (set_default : Bool := true) :
    Option DateTime × EventParser :=
  match dateutil_parse s ep.default with
  | some d => (some d, if set_default then ⟨midnightOf d⟩ else ep)
  | none => (none, ep)

/-- The event dictionaries built by `EventParser`: `start`, `end`
(Python key `end`, named `stop` here) and `allDay`. -/
structure Event where
  start : Option DateTime
  stop : Option DateTime
  allDay : Bool
deriving DecidableEq, Repr

/-- `EventParser._to_event`. -/
def EventParser.toEvent (dt : Option DateTime) : Option Event :=
  match dt with
  | none => none
  | some d => some ⟨some d, none, d.hour = 0 && d.minute = 0 && d.second = 0⟩

/-- `EventParser.parsedate(s)`: range split on the `event_range` regex
(the `until` side not updating the default), else a single parse for
tokens starting with a digit or with the `d:` prefix, else no event.
Returns the event and the updated parser state. -/
def EventParser.parsedate (ep : EventParser) (s : String) :
    Option Event × EventParser :=
  if s.data.isEmpty then (none, ep)
  else
    match eventRangeSearch s with
    | some (p, q) =>
      let r1 := ep.parse (strTake s p) true
      let r2 := r1.2.parse (strDrop s q) false
      (some ⟨r1.1, r2.1, false⟩, r2.2)
    | none =>
      if isDigitC s.data.head! then
        let r := ep.parse s true
        (EventParser.toEvent r.1, r.2)
      else if strTake s 2 = "d:" then
        let r := ep.parse (strDrop s 2) true
        (EventParser.toEvent r.1, r.2)
      else (none, ep)

/-- Python exceptions that the embedded code raises or catches. -/
inductive PyErr where
  | valueError
  | typeError
deriving DecidableEq, Repr

/-- `parsetime(s)`: split on `":"`, unpack into exactly two components,
convert with `int`, and build `datetime.time(h, m, 0)`.  A wrong number
of components, a non-numeric component, or an out-of-range hour or
minute raises `ValueError`. -/
def parsetime (s : String) : Except PyErr Time :=
  match splitOnColon s with
  | [h, m] =>
    if h.data.all isDigitC && ¬ h.data.isEmpty && m.data.all isDigitC && ¬ m.data.isEmpty then
      let hv := digitsToNat h.data
      let mv := digitsToNat m.data
      if hv < 24 && mv < 60 then Except.ok ⟨hv, mv, 0⟩
      else Except.error PyErr.valueError
    else Except.error PyErr.valueError
  | _ => Except.error PyErr.valueError

/-- Modelled from the spec: the `Log` container
(`LogBlock{begin, until, body}`, §3) lives in `egtlib/log.py`, which is
not under `src/`; the parser only constructs it, with the body lines
joined by newlines. -/
structure Log where
  begin : Option DateTime
  until_ : Option DateTime
  body : String
deriving DecidableEq, Repr

/-- State of `LogParser`: its `EventParser`, the open block's `begin`
and `until`, and the accumulated body lines. -/
structure LogParser where
  ep : EventParser
  begin : Option DateTime
  until_ : Option DateTime
  logbody : List String
deriving DecidableEq, Repr

/-- `LogParser.__init__`: the event parser's default is reseeded to
January 1 of the current year (`datetime.datetime(today.year, 1, 1)`,
all clock fields zero). -/
def LogParser.init (today : DateTime) : LogParser :=
  ⟨⟨⟨today.year, 1, 1, 0, 0, 0, 0⟩⟩, none, none, []⟩

/-- The `Log` value `LogParser.flush` builds. -/
def LogParser.flushLog (lp : LogParser) : Log :=
  ⟨lp.begin, lp.until_, String.intercalate "\n" lp.logbody⟩

/-- `LogParser.flush`: emit the open block and reset.  Note the source
resets `begin` and `logbody` but assigns a never-read `self.end`
attribute instead of `self.until`, so `until` keeps its stale value. -/
def LogParser.flushState (lp : LogParser) : LogParser :=
  { lp with begin := none, logbody := [] }

/-- One step of the body of the `while` loop of `LogParser.parse` for a
non-empty line: date-context lines update the default (flushing any open
block), log heads open a block (flushing first; a `ValueError` from
`parsetime` is caught and the line falls through), and anything else is
appended to the log body.  Returns the entries emitted by this line and
the new state. -/
def LogParser.step (lp : LogParser) (line : String) : List Log × LogParser :=
  match logDateMatch line with
  | some val =>
    let (flushed, lp₁) :=
      if lp.begin.isSome then ([lp.flushLog], lp.flushState) else ([], lp)
    let ep₁ := (lp₁.ep.parse val true).2
    (flushed, { lp₁ with ep := ep₁ })
  | none =>
    match logHeadMatch line with
    | some (dstr, sstr, estr) =>
      let (flushed, lp₁) :=
        if lp.begin.isSome then ([lp.flushLog], lp.flushState) else ([], lp)
      let r := lp₁.ep.parse dstr true
      let date := match r.1 with | some d => d | none => r.2.default
      let lp₂ := { lp₁ with ep := r.2 }
      match parsetime sstr with
      | Except.error _ => (flushed, { lp₂ with logbody := lp₂.logbody ++ [line] })
      | Except.ok st =>
        let b := combine date st
        let lp₃ := { lp₂ with begin := some b }
        match estr with
        | none => (flushed, { lp₃ with until_ := none })
        | some es =>
          match parsetime es with
          | Except.error _ => (flushed, { lp₃ with logbody := lp₃.logbody ++ [line] })
          | Except.ok et =>
            let u := combine date et
            let u := if dtLt u b then addOneDay u else u
            (flushed, { lp₃ with until_ := some u })
    | none => ([], { lp with logbody := lp.logbody ++ [line] })

/-- `LogParser.parse(lines)`: consume lines until a falsy one (an empty
string, or the end of input), then flush any open block.  Returns the
emitted entries, the final state, and the lines left unconsumed. -/
def LogParser.parseList (lp : LogParser) (acc : List Log) :
    List String → List Log × LogParser × List String
  | [] =>
    if lp.begin.isSome then (acc ++ [lp.flushLog], lp.flushState, [])
    else (acc, lp, [])
  | l :: ls =>
    if l = "" then
      (if lp.begin.isSome then (acc ++ [lp.flushLog], lp.flushState, ls)
       else (acc, lp, ls))
    else
      let r := lp.step l
      LogParser.parseList r.2 (acc ++ r.1) ls

/-- The annotated `Line` namedtuple `(num, ind, mark, line)`.  Python
markers `None` / `' '` / `'-'` / `'*'` become
`none` / `some ' '` / `some '-'` / `some '*'`. -/
structure Line where
  num : Nat
  ind : Nat
  mark : Option Char
  line : String
deriving DecidableEq, Repr

/-- The indent scan of `annotate_with_indent_and_markers` for one
non-blank line: walk the leading characters, a space adding 1 and a tab
adding 8 to the level, capturing at most one leading `-`/`*` as the
marker (which also counts one level, with `mlev` recording the level
before it), stopping at any other character.  Returns
`(lev, mlev, marker)`. -/
def indentScan : List Char → Nat → Nat → Option Char → Nat × Nat × Option Char
  | [], lev, mlev, marker => (lev, mlev, marker)
  | c :: cs, lev, mlev, marker =>
    if c = ' ' then indentScan cs (lev + 1) mlev marker
    else if c = '\t' then indentScan cs (lev + 8) mlev marker
    else if marker = none && (c = '*' || c = '-') then indentScan cs (lev + 1) lev (some c)
    else (lev, mlev, marker)

/-- The `lev` component of the indent scan of a line. -/
def levOf (s : String) : Nat :=
  (indentScan s.data 0 0 none).1

/-- The marker component of the indent scan of a line. -/
def markOf (s : String) : Option Char :=
  (indentScan s.data 0 0 none).2.2

/-- The line's computed indent excluding any marker: `mlev` after the
reassignment `if marker is None: mlev = lev`. -/
def mlevOf (s : String) : Nat :=
  let t := indentScan s.data 0 0 none
  if t.2.2 = none then t.1 else t.2.1

/-- Buffered blank lines paired with their absolute line numbers. -/
def enumF : Nat → List String → List (Nat × String)
  | _, [] => []
  | n, x :: xs => (n, x) :: enumF (n + 1) xs

/-- Body of `annotate_with_indent_and_markers`: `n` is the absolute
number of the next line, `li` the indent of the last non-blank line
(`last_indent`, initially 0), `buf` the buffered blank lines
(`last_empty_lines`).  Blank lines are buffered; a non-blank line first
flushes the buffer with indent `last_indent` when its own
marker-excluded indent is at least `last_indent` and 0 otherwise, then
is emitted with its scanned level and marker; a trailing buffer is
flushed with indent 0. -/
def annotateAux : List String → Nat → Nat → List (Nat × String) → List Line
  | [], _, _, buf => buf.map (fun p => ⟨p.1, 0, some ' ', p.2⟩)
  | l :: ls, n, li, buf =>
    if isBlank l then annotateAux ls (n + 1) li (buf ++ [(n, l)])
    else
      let elev := if mlevOf l ≥ li then li else 0
      (buf.map (fun p => ⟨p.1, elev, some ' ', p.2⟩)) ++
        ⟨n, levOf l, markOf l, l⟩ :: annotateAux ls (n + 1) (levOf l) []

/-- `annotate_with_indent_and_markers(lines, first_lineno)`. -/
def annotate_with_indent_and_markers (lines : List String) (first_lineno : Nat := 1) :
    List Line :=
  annotateAux lines first_lineno 0 []

/-- The parsed body blocks (`Spacer`, `FreeformText`, `NextActions`,
`SomedayMaybe`), as a closed variant type.  `NextActions.contexts` is a
`frozenset`, embedded as a `Finset`. -/
inductive ActionBlock where
  | spacer (lines : List String)
  | freeform (lines : List String)
  | nextActions (contexts : Finset String) (lines : List String) (event : Option Event)
  | somedayMaybe (lines : List String)
deriving DecidableEq

/-- `BodyParser.add_to_spacer`: append to the last block when it is a
spacer, else start a new spacer block. -/
def addToSpacer (parsed : List ActionBlock) (l : String) : List ActionBlock :=
  match parsed.getLast? with
  | some (ActionBlock.spacer ls) => parsed.dropLast ++ [ActionBlock.spacer (ls ++ [l])]
  | _ => parsed ++ [ActionBlock.spacer [l]]

/-- `BodyParser.add_to_freeform`: append to the last block when it is
freeform text, else start a new freeform block. -/
def addToFreeform (parsed : List ActionBlock) (l : String) : List ActionBlock :=
  match parsed.getLast? with
  | some (ActionBlock.freeform ls) => parsed.dropLast ++ [ActionBlock.freeform (ls ++ [l])]
  | _ => parsed ++ [ActionBlock.freeform [l]]

/-- The `while` loop of `BodyParser.parse_next_action_list`:
`last_indent` starts as `None` and becomes each consumed line's indent;
the loop stops at end of input, at a `*` marker, or at a line whose
indent is below `last_indent`, and otherwise consumes the line's text.
Returns the accumulated `na.lines` and the lines left unconsumed. -/
def nalLoop (lastIndent : Option Nat) (acc : List String) :
    List Line → List String × List Line
  | [] => (acc, [])
  | ln :: rest =>
    if ln.mark = some '*' then (acc, ln :: rest)
    else
      let li := lastIndent.getD ln.ind
      if ln.ind < li then (acc, ln :: rest)
      else nalLoop (some ln.ind) (acc ++ [ln.line]) rest

/-- Block emission at the end of `parse_next_action_list`: one eventless
`NextActions` when no events were collected, else one block per event
(`na.at(e)`), each sharing the same lines. -/
def mkNABlocks (contexts : Finset String) (events : List Event) (ls : List String) :
    List ActionBlock :=
  if events.isEmpty then [ActionBlock.nextActions contexts ls none]
  else events.map (fun e => ActionBlock.nextActions contexts ls (some e))

/-- The token loop of the context-header branch of
`BodyParser.parse_next_actions`: strip `" :\t"` from the header text,
split on comma, and try each token as a date with the shared
`EventParser` (whose rolling state threads through the tokens); tokens
that parse become events, the rest become context names. -/
def splitHeader (ep : EventParser) (l : String) :
    List String × List Event × EventParser :=
  (splitCommaWS (pyStrip l [' ', ':', '\t'])).foldl
    (fun acc t =>
      match EventParser.parsedate acc.2.2 t with
      | (some ev, ep') => (acc.1, acc.2.1 ++ [ev], ep')
      | (none, ep') => (acc.1 ++ [t], acc.2.1, ep'))
    ([], [], ep)

/-- The loop of `BodyParser.parse_next_actions`, with explicit fuel (one
unit per iteration; the wrapper supplies enough fuel that it never runs
out, since every iteration either returns or consumes at least one
line).  Branches in source order: a `*` marker returns (StopIteration
at the exhausted cursor also just returns); a zero-indent line ending in
`:` is a context header, parsed and followed by a next-action list; a
`-` marker starts a contextless next-action list; a blank goes to a
spacer; anything else to freeform text.  Returns the parsed blocks and
the unconsumed lines (empty exactly when the cursor was exhausted). -/
def parseNextActionsF : Nat → EventParser → List ActionBlock → List Line →
    List ActionBlock × List Line
  | 0, _, parsed, lines => (parsed, lines)
  | _ + 1, _, parsed, [] => (parsed, [])
  | fuel + 1, ep, parsed, ln :: rest =>
    if ln.mark = some '*' then (parsed, ln :: rest)
    else if ln.ind = 0 && endsWithColon ln.line then
      let h := splitHeader ep ln.line
      let nal := nalLoop none [ln.line] rest
      parseNextActionsF fuel h.2.2 (parsed ++ mkNABlocks h.1.toFinset h.2.1 nal.1) nal.2
    else if ln.mark = some '-' then
      let nal := nalLoop none [] (ln :: rest)
      parseNextActionsF fuel ep (parsed ++ mkNABlocks ∅ [] nal.1) nal.2
    else if ln.mark = some ' ' then
      parseNextActionsF fuel ep (addToSpacer parsed ln.line) rest
    else
      parseNextActionsF fuel ep (addToFreeform parsed ln.line) rest

/-- `BodyParser.parse_next_actions`, with the fuel fixed ample. -/
def parseNextActions (ep : EventParser) (parsed : List ActionBlock) (lines : List Line) :
    List ActionBlock × List Line :=
  parseNextActionsF (lines.length + 1) ep parsed lines

/-- `BodyParser.parse_body` on already-annotated lines: run the
next-actions pass; when it stopped at a `*` terminator (unconsumed lines
remain), `parse_someday_maybe` collects the terminator and every
remaining line verbatim into one `SomedayMaybe` block; when the cursor
was exhausted, the `StopIteration` is caught and no someday block is
added. -/
def parseBodyAnn (ep : EventParser) (lines : List Line) : List ActionBlock :=
  match parseNextActions ep [] lines with
  | (parsed, []) => parsed
  | (parsed, r :: rest) => parsed ++ [ActionBlock.somedayMaybe (r.line :: rest.map Line.line)]

/-- `BodyParser.__init__` + `parse_body`: annotate the raw lines, then
parse, with a fresh `EventParser` seeded from the ambient date. -/
def parse_body (today : DateTime) (lines : List String) (first_lineno : Nat := 1) :
    List ActionBlock :=
  parseBodyAnn (EventParser.init today) (annotate_with_indent_and_markers lines first_lineno)

/-- Modelled from the spec: the external email-style header collaborator
(§6) behind `email.message_from_string(...).items()`: each `Key: value`
line becomes a pair with the key case-folded, continuation lines
(leading whitespace) folding into the previous value.  Its exact output
is not consumed by the claims; it never raises here. -/
def email_headers (lines : List String) : List (String × String) :=
  lines.foldl
    (fun acc l =>
      match l.data with
      | [] => acc
      | c :: _ =>
        if isPySpace c then
          match acc.getLast? with
          | some (k, v) => acc.dropLast ++ [(k, v ++ "\n" ++ l)]
          | none => acc
        else
          match l.data.findIdx? (fun c => c = ':') with
          | some i =>
            acc ++ [(strLower (strTake l i),
              String.mk ((l.data.drop (i + 1)).dropWhile isPySpace))]
          | none => acc)
    []

/-- The document value assembled by `ProjectParser.parse`: metadata,
log entries and body blocks. -/
structure PDoc where
  meta : List (String × String)
  log : List Log
  body : List ActionBlock
deriving DecidableEq

/-- `ProjectParser.parse_meta` on the cursor: `peek()` yields `None` at
end of input, and passing that `None` to `re.match` raises `TypeError`.
When the first line looks like a log or is no header, there is no
metadata; otherwise lines up to the first falsy one are collected and
handed to the external header parser.  Returns the metadata and the
lines left unconsumed. -/
def parse_meta (lines : List String) :
    Except PyErr (List (String × String) × List String) :=
  match lines with
  | [] => Except.error PyErr.typeError
  | first :: _ =>
    if (logDateMatch first).isSome || (logHeadMatch first).isSome then
      Except.ok ([], lines)
    else if ¬ metaHeadMatch first then Except.ok ([], lines)
    else
      let collected := lines.takeWhile (fun l => l ≠ "")
      let rest := (lines.drop collected.length).drop 1
      Except.ok (email_headers collected, rest)

/-- `ProjectParser.skip_empty_lines`: advance past empty lines. -/
def skip_empty_lines (lines : List String) : List String :=
  lines.dropWhile (fun l => l = "")

/-- `ProjectParser.parse_log`: build a `LogParser` and test the next
line with `is_log`; at end of input `peek()` is `None` and `re.match`
raises `TypeError`.  When the line looks like a log, `LogParser.parse`
consumes lines; otherwise the log is empty. -/
def parse_log (today : DateTime) (lines : List String) :
    Except PyErr (List Log × List String) :=
  let lp := LogParser.init today
  match lines with
  | [] => Except.error PyErr.typeError
  | first :: _ =>
    if (logDateMatch first).isSome || (logHeadMatch first).isSome then
      let r := lp.parseList [] lines
      Except.ok (r.1, r.2.2)
    else Except.ok ([], lines)

/-- `ProjectParser.parse(fname, fd)`: right-strip every input line, then
metadata, blank skip, log, blank skip, body, in that order.  Errors
propagate: nothing in the source catches the `TypeError` from matching
against a `None` peek. -/
def ProjectParser.parse (today : DateTime) (input : List String) :
    Except PyErr PDoc := do
  let lines := input.map pyRstrip
  let (meta, r1) ← parse_meta lines
  let r2 := skip_empty_lines r1
  let (logs, r3) ← parse_log today r2
  let r4 := skip_empty_lines r3
  let firstLineno := lines.length - r4.length
  let body := parseBodyAnn (EventParser.init today)
    (annotate_with_indent_and_markers r4 firstLineno)
  return ⟨meta, logs, body⟩

/-- The indent the next-action-list loop compares against after having
consumed `taken` body lines, starting from threshold `prev`: the last
consumed line's indent, or `prev` when none was consumed yet. -/
def lastInd (prev : Nat) (taken : List Line) : Nat :=
  (taken.map Line.ind).getLastD prev

theorem nalLoop_nil (li : Option Nat) (acc : List String) :
    nalLoop li acc [] = (acc, []) := rfl

theorem nalLoop_length_le (lines : List Line) :
    ∀ (li : Option Nat) (acc : List String), (nalLoop li acc lines).2.length ≤ lines.length := by
  induction lines with
  | nil => intro li acc; simp [nalLoop]
  | cons ln rest ih =>
    intro li acc
    simp only [nalLoop]
    split
    · simp
    · split
      · simp
      · exact Nat.le_trans (ih _ _) (Nat.le_succ _)

theorem nalLoop_suffix (lines : List Line) :
    ∀ (li : Option Nat) (acc : List String), (nalLoop li acc lines).2 <:+ lines := by
  induction lines with
  | nil => intro li acc; simp [nalLoop]
  | cons ln rest ih =>
    intro li acc
    simp only [nalLoop]
    split
    · exact List.suffix_refl _
    · split
      · exact List.suffix_refl _
      · exact (ih _ _).trans (List.suffix_cons ln rest)

theorem nalLoop_cons_ne_star (ln : Line) (rest : List Line) (acc : List String)
    (h : ln.mark ≠ some '*') :
    nalLoop none acc (ln :: rest) = nalLoop (some ln.ind) (acc ++ [ln.line]) rest := by
  simp [nalLoop, h]

theorem nalLoop_cons_length_le (ln : Line) (rest : List Line) (acc : List String)
    (h : ln.mark ≠ some '*') :
    (nalLoop none acc (ln :: rest)).2.length ≤ rest.length := by
  rw [nalLoop_cons_ne_star ln rest acc h]
  exact nalLoop_length_le rest _ _

/-- Characterisation of the list-consuming loop of
`parse_next_action_list` from threshold `prev`: it consumes a prefix of
lines that is star-free and whose indents, prefixed with `prev`, never
strictly decrease, and it stops exactly at end of input, at a star line,
or at a line with indent below the last consumed indent. -/
theorem nalLoop_some_spec (lines : List Line) :
    ∀ (prev : Nat) (acc : List String),
      ∃ taken rest, lines = taken ++ rest ∧
        nalLoop (some prev) acc lines = (acc ++ taken.map Line.line, rest) ∧
        List.Chain' (· ≤ ·) (prev :: taken.map Line.ind) ∧
        (∀ t ∈ taken, t.mark ≠ some '*') ∧
        (rest = [] ∨ ∃ r rs, rest = r :: rs ∧
          (r.mark = some '*' ∨ r.ind < lastInd prev taken)) := by
  induction lines with
  | nil =>
    intro prev acc
    exact ⟨[], [], by simp, by simp [nalLoop], by simp, by simp, Or.inl rfl⟩
  | cons ln rest ih =>
    intro prev acc
    by_cases hstar : ln.mark = some '*'
    · refine ⟨[], ln :: rest, by simp, ?_, by simp, by simp, ?_⟩
      · simp [nalLoop, hstar]
      · exact Or.inr ⟨ln, rest, rfl, Or.inl hstar⟩
    · by_cases hlt : ln.ind < prev
      · refine ⟨[], ln :: rest, by simp, ?_, by simp, by simp, ?_⟩
        · simp [nalLoop, hstar, hlt]
        · exact Or.inr ⟨ln, rest, rfl, Or.inr (by simpa [lastInd] using hlt)⟩
      · obtain ⟨taken, rest', hsplit, heq, hchain, hns, hmax⟩ :=
          ih ln.ind (acc ++ [ln.line])
        refine ⟨ln :: taken, rest', by simp [hsplit], ?_, ?_, ?_, ?_⟩
        · simp only [nalLoop, if_neg hstar, Option.getD_some, if_neg hlt, heq]
          simp [List.append_assoc]
        · exact List.Chain'.cons (Nat.le_of_not_lt hlt) hchain
        · intro t ht
          rcases List.mem_cons.mp ht with h | h
          · exact h ▸ hstar
          · exact hns t h
        · rcases hmax with h | ⟨r, rs, hr, hcond⟩
          · exact Or.inl h
          · refine Or.inr ⟨r, rs, hr, ?_⟩
            rcases hcond with h | h
            · exact Or.inl h
            · refine Or.inr ?_
              simp only [lastInd, List.map_cons, List.getLastD_cons]
              simpa only [lastInd] using h

/-- The same characterisation started with `last_indent = None` (the
first examined line's indent becomes the threshold, so a leading
non-star line is always consumed). -/
theorem nalLoop_none_spec (lines : List Line) (acc : List String) :
    ∃ taken rest, lines = taken ++ rest ∧
      nalLoop none acc lines = (acc ++ taken.map Line.line, rest) ∧
      List.Chain' (· ≤ ·) (taken.map Line.ind) ∧
      (∀ t ∈ taken, t.mark ≠ some '*') ∧
      (rest = [] ∨ ∃ r rs, rest = r :: rs ∧
        (r.mark = some '*' ∨ ∃ t, taken.getLast? = some t ∧ r.ind < t.ind)) := by
  match lines with
  | [] => exact ⟨[], [], by simp, by simp [nalLoop], by simp, by simp, Or.inl rfl⟩
  | ln :: rest =>
    by_cases hstar : ln.mark = some '*'
    · refine ⟨[], ln :: rest, by simp, by simp [nalLoop, hstar], by simp, by simp, ?_⟩
      exact Or.inr ⟨ln, rest, rfl, Or.inl hstar⟩
    · obtain ⟨taken, rest', hsplit, heq, hchain, hns, hmax⟩ :=
        nalLoop_some_spec rest ln.ind (acc ++ [ln.line])
      rw [nalLoop_cons_ne_star ln rest acc hstar]
      refine ⟨ln :: taken, rest', by simp [hsplit], by simp [heq, List.append_assoc], ?_, ?_, ?_⟩
      · simpa using hchain
      · intro t ht
        rcases List.mem_cons.mp ht with h | h
        · exact h ▸ hstar
        · exact hns t h
      · rcases hmax with h | ⟨r, rs, hr, hcond⟩
        · exact Or.inl h
        · refine Or.inr ⟨r, rs, hr, ?_⟩
          rcases hcond with h | h
          · exact Or.inl h
          · refine Or.inr ?_
            rcases hl : taken.getLast? with _ | t
            · have htn : taken = [] := List.getLast?_eq_none_iff.mp hl
              subst htn
              refine ⟨ln, by simp, ?_⟩
              simpa [lastInd] using h
            · refine ⟨t, by simp [List.getLast?_cons, List.getLastD_eq_getLast?, hl], ?_⟩
              have : lastInd ln.ind taken = t.ind := by
                simp [lastInd, List.getLastD_eq_getLast?, List.getLast?_map, hl]
              exact this ▸ h

theorem pnaF_star (fuel : Nat) (ep : EventParser) (parsed : List ActionBlock)
    (ln : Line) (rest : List Line) (h : ln.mark = some '*') :
    parseNextActionsF (fuel + 1) ep parsed (ln :: rest) = (parsed, ln :: rest) := by
  simp [parseNextActionsF, h]

/-- Whenever the next-actions loop returns unconsumed lines, the first
of them carries the `*` marker, and they are a suffix of the input. -/
theorem pnaF_rest_star (fuel : Nat) :
    ∀ (ep : EventParser) (parsed : List ActionBlock) (lines : List Line),
      lines.length < fuel →
      (parseNextActionsF fuel ep parsed lines).2 = [] ∨
      ∃ r rs, (parseNextActionsF fuel ep parsed lines).2 = r :: rs ∧
        r.mark = some '*' ∧ (r :: rs) <:+ lines := by
  induction fuel with
  | zero => intro ep parsed lines h; exact absurd h (Nat.not_lt_zero _)
  | succ fuel ih =>
    intro ep parsed lines hlen
    match lines with
    | [] => exact Or.inl rfl
    | ln :: rest =>
      by_cases hstar : ln.mark = some '*'
      · exact Or.inr ⟨ln, rest, by simp [parseNextActionsF, hstar], hstar, List.suffix_refl _⟩
      · have hlen' : rest.length < fuel := Nat.lt_of_succ_lt_succ hlen
        by_cases hhdr : (ln.ind = 0 && endsWithColon ln.line) = true
        · rw [show parseNextActionsF (fuel + 1) ep parsed (ln :: rest) =
              parseNextActionsF fuel (splitHeader ep ln.line).2.2
                (parsed ++ mkNABlocks (splitHeader ep ln.line).1.toFinset
                  (splitHeader ep ln.line).2.1 (nalLoop none [ln.line] rest).1)
                (nalLoop none [ln.line] rest).2 from by
            simp [parseNextActionsF, hstar, hhdr]]
          have hn : (nalLoop none [ln.line] rest).2.length < fuel :=
            Nat.lt_of_le_of_lt (nalLoop_length_le rest _ _) hlen'
          rcases ih _ _ _ hn with h | ⟨r, rs, he, hm, hs⟩
          · exact Or.inl h
          · exact Or.inr ⟨r, rs, he, hm,
              hs.trans ((nalLoop_suffix rest _ _).trans (List.suffix_cons ln rest))⟩
        · by_cases hdash : ln.mark = some '-'
          · rw [show parseNextActionsF (fuel + 1) ep parsed (ln :: rest) =
                parseNextActionsF fuel ep
                  (parsed ++ mkNABlocks ∅ [] (nalLoop none [] (ln :: rest)).1)
                  (nalLoop none [] (ln :: rest)).2 from by
              simp [parseNextActionsF, hstar, hhdr, hdash]]
            have hn : (nalLoop none [] (ln :: rest)).2.length < fuel :=
              Nat.lt_of_le_of_lt (nalLoop_cons_length_le ln rest [] hstar) hlen'
            rcases ih _ _ _ hn with h | ⟨r, rs, he, hm, hs⟩
            · exact Or.inl h
            · exact Or.inr ⟨r, rs, he, hm, hs.trans (nalLoop_suffix (ln :: rest) _ _)⟩
          · by_cases hsp : ln.mark = some ' '
            · rw [show parseNextActionsF (fuel + 1) ep parsed (ln :: rest) =
                  parseNextActionsF fuel ep (addToSpacer parsed ln.line) rest from by
                simp [parseNextActionsF, hstar, hhdr, hdash, hsp]]
              rcases ih _ _ _ hlen' with h | ⟨r, rs, he, hm, hs⟩
              · exact Or.inl h
              · exact Or.inr ⟨r, rs, he, hm, hs.trans (List.suffix_cons ln rest)⟩
            · rw [show parseNextActionsF (fuel + 1) ep parsed (ln :: rest) =
                  parseNextActionsF fuel ep (addToFreeform parsed ln.line) rest from by
                simp [parseNextActionsF, hstar, hhdr, hdash, hsp]]
              rcases ih _ _ _ hlen' with h | ⟨r, rs, he, hm, hs⟩
              · exact Or.inl h
              · exact Or.inr ⟨r, rs, he, hm, hs.trans (List.suffix_cons ln rest)⟩

/-- The clock fields of a datetime are all zero (it is a midnight). -/
def atMidnight (d : DateTime) : Prop :=
  d.hour = 0 ∧ d.minute = 0 ∧ d.second = 0 ∧ d.microsecond = 0

theorem atMidnight_midnightOf (d : DateTime) : atMidnight (midnightOf d) := by
  simp [atMidnight, midnightOf]

theorem parse_preserves_midnight (ep : EventParser) (s : String) (sd : Bool)
    (h : atMidnight ep.default) : atMidnight ((ep.parse s sd).2).default := by
  unfold EventParser.parse
  cases hd : dateutil_parse s ep.default with
  | none => exact h
  | some d =>
    cases sd with
    | false => exact h
    | true => exact atMidnight_midnightOf d

theorem parsedate_preserves_midnight (ep : EventParser) (s : String)
    (h : atMidnight ep.default) : atMidnight ((ep.parsedate s).2).default := by
  unfold EventParser.parsedate
  by_cases he : s.data.isEmpty
  · simpa [he] using h
  · cases hr : eventRangeSearch s with
    | some pq =>
      simp only [he, hr]
      exact parse_preserves_midnight _ _ _ (parse_preserves_midnight _ _ _ h)
    | none =>
      simp only [he, hr]
      by_cases h1 : isDigitC s.data.head! = true
      · simpa [h1] using parse_preserves_midnight ep s true h
      · by_cases h2 : strTake s 2 = "d:"
        · simpa [h1, h2] using parse_preserves_midnight ep (strDrop s 2) true h
        · simpa [h1, h2] using h

/-- The `last_indent` value in force after a prefix of lines whose last
line is non-blank (0 for the empty prefix). -/
def prevLev (pre : List String) : Nat :=
  match pre.getLast? with
  | some p => levOf p
  | none => 0

theorem enumF_append (n : Nat) (xs ys : List String) :
    enumF n (xs ++ ys) = enumF n xs ++ enumF (n + xs.length) ys := by
  induction xs generalizing n with
  | nil => simp [enumF]
  | cons x xs ih =>
    simp only [List.cons_append, enumF, List.length_cons, List.append_eq]
    rw [ih]
    have harith : n + 1 + xs.length = n + (xs.length + 1) := by omega
    rw [harith]

theorem annotateAux_cons_blank (l : String) (ls : List String) (n li : Nat)
    (buf : List (Nat × String)) (h : isBlank l = true) :
    annotateAux (l :: ls) n li buf = annotateAux ls (n + 1) li (buf ++ [(n, l)]) := by
  simp [annotateAux, h]

theorem annotateAux_cons_nonblank (l : String) (ls : List String) (n li : Nat)
    (buf : List (Nat × String)) (h : isBlank l = false) :
    annotateAux (l :: ls) n li buf =
      (buf.map fun p => ⟨p.1, (if mlevOf l ≥ li then li else 0), some ' ', p.2⟩) ++
        ⟨n, levOf l, markOf l, l⟩ :: annotateAux ls (n + 1) (levOf l) [] := by
  simp [annotateAux, h]

/-- Running the annotator on buffered blanks followed by a non-blank
line: every buffered and newly buffered blank is flushed with the indent
dictated by comparing the non-blank line's marker-excluded indent with
`last_indent`, then the non-blank line itself is emitted. -/
theorem annotateAux_blanks (blanks : List String) :
    ∀ (l : String) (rest : List String) (n li : Nat) (buf : List (Nat × String)),
      (∀ b ∈ blanks, isBlank b = true) → isBlank l = false →
      annotateAux (blanks ++ l :: rest) n li buf =
        ((buf ++ enumF n blanks).map
          (fun p => ⟨p.1, (if mlevOf l ≥ li then li else 0), some ' ', p.2⟩)) ++
          ⟨n + blanks.length, levOf l, markOf l, l⟩ ::
            annotateAux rest (n + blanks.length + 1) (levOf l) [] := by
  induction blanks with
  | nil =>
    intro l rest n li buf _ hl
    simp [annotateAux, hl, enumF]
  | cons b bs ih =>
    intro l rest n li buf hb hl
    have hbb : isBlank b = true := hb b (List.mem_cons_self b bs)
    rw [List.cons_append, annotateAux_cons_blank b _ n li buf hbb]
    rw [ih l rest (n + 1) li (buf ++ [(n, b)]) (fun x hx => hb x (List.mem_cons_of_mem b hx)) hl]
    have h1 : n + 1 + bs.length = n + (b :: bs).length := by simp; omega
    have h2 : buf ++ [(n, b)] ++ enumF (n + 1) bs = buf ++ enumF n (b :: bs) := by
      simp [enumF, List.append_assoc]
    rw [h1, h2]

/-- Running the annotator on trailing blanks only: everything, buffered
or newly read, is flushed with indent 0. -/
theorem annotateAux_trailing (blanks : List String) :
    ∀ (n li : Nat) (buf : List (Nat × String)),
      (∀ b ∈ blanks, isBlank b = true) →
      annotateAux blanks n li buf =
        (buf ++ enumF n blanks).map (fun p => ⟨p.1, 0, some ' ', p.2⟩) := by
  induction blanks with
  | nil => intro n li buf _; simp [annotateAux, enumF]
  | cons b bs ih =>
    intro n li buf hb
    have hbb : isBlank b = true := hb b (List.mem_cons_self b bs)
    rw [annotateAux_cons_blank b bs n li buf hbb]
    rw [ih (n + 1) li (buf ++ [(n, b)]) (fun x hx => hb x (List.mem_cons_of_mem b hx))]
    have h2 : buf ++ [(n, b)] ++ enumF (n + 1) bs = buf ++ enumF n (b :: bs) := by
      simp [enumF, List.append_assoc]
    rw [h2]

/-- Running the annotator through a prefix whose last line is non-blank
produces one output line per input line (plus the flushed buffer) and
leaves `last_indent` at that last line's level with an empty buffer. -/
theorem annotateAux_prefix (pre : List String) :
    ∀ (p : String), pre.getLast? = some p → isBlank p = false →
      ∀ (suffix : List String) (n li : Nat) (buf : List (Nat × String)),
        ∃ out, out.length = buf.length + pre.length ∧
          annotateAux (pre ++ suffix) n li buf =
            out ++ annotateAux suffix (n + pre.length) (levOf p) [] := by
  induction pre with
  | nil => intro p hp; simp at hp
  | cons x pre ih =>
    intro p hp hnb suffix n li buf
    match pre, hp with
    | [], hp =>
      have hxp : x = p := by simpa using hp
      subst hxp
      refine ⟨(buf.map fun q =>
          ⟨q.1, (if mlevOf x ≥ li then li else 0), some ' ', q.2⟩) ++
          [⟨n, levOf x, markOf x, x⟩], by simp, ?_⟩
      rw [List.singleton_append, annotateAux_cons_nonblank x suffix n li buf hnb]
      simp [List.append_assoc]
    | y :: pre', hp =>
      have hp' : (y :: pre').getLast? = some p := by
        simpa [List.getLast?_cons_cons] using hp
      by_cases hx : isBlank x = true
      · obtain ⟨out, hlen, heq⟩ := ih p hp' hnb suffix (n + 1) li (buf ++ [(n, x)])
        refine ⟨out, ?_, ?_⟩
        · simp at hlen ⊢
          omega
        · have harith : n + 1 + (y :: pre').length = n + (x :: y :: pre').length := by
            simp; omega
          rw [List.cons_append, annotateAux_cons_blank x _ n li buf hx, heq, harith]
      · have hx' : isBlank x = false := by simpa using hx
        obtain ⟨out, hlen, heq⟩ := ih p hp' hnb suffix (n + 1) (levOf x) []
        refine ⟨(buf.map fun q =>
            ⟨q.1, (if mlevOf x ≥ li then li else 0), some ' ', q.2⟩) ++
            ⟨n, levOf x, markOf x, x⟩ :: out, ?_, ?_⟩
        · simp at hlen ⊢
          omega
        · have harith : n + 1 + (y :: pre').length = n + (x :: y :: pre').length := by
            simp; omega
          rw [List.cons_append, annotateAux_cons_nonblank x _ n li buf hx', heq, harith]
          simp [List.append_assoc]

/-- C1.  The claim states that `LogParser.parse` turns the time-less log
head `"16 march:"` (after a stand-alone `"2015"` date line) into an
all-day block `[2015-03-16T00:00, 2015-03-17T00:00)`, as the
repository's own test `src/test/test_log.py` also expects.  The parser
in `src/egtlib/egtparser.py` does not: its `log_head` regexp demands an
explicit `H:MM` start time after the colon, so `"16 march:"` matches
neither header pattern, is demoted to plain body text, no block is ever
opened, and the parse of the test's log lines emits no entry at all
while the rolling default still sits at 2015-01-01. -/
theorem eC1 (today : DateTime) :
    LogParser.parseList (LogParser.init today) []
        ["2015", "16 march:", " - implemented day logs"] =
      ([], ⟨⟨⟨2015, 1, 1, 0, 0, 0, 0⟩⟩, none, none,
        ["16 march:", " - implemented day logs"]⟩, []) ∧
    logHeadMatch "16 march:" = none ∧ logDateMatch "16 march:" = none :=
  ⟨rfl, rfl, rfl⟩

/-- C3.  The claim states that `ProjectParser.parse` completes on every
finite line sequence, including the empty sequence, blank-only
sequences, and metadata-only sequences.  It does not: `peek()` returns
`None` at end of input and both `parse_meta` and `LogParser.is_log`
pass that `None` straight into `re.match`, which raises `TypeError`, so
exactly those three kinds of input crash the parse. -/
theorem eC3 (today : DateTime) :
    ProjectParser.parse today [] = Except.error PyErr.typeError ∧
    ProjectParser.parse today [""] = Except.error PyErr.typeError ∧
    ProjectParser.parse today ["Name: testprj"] = Except.error PyErr.typeError :=
  ⟨rfl, rfl, rfl⟩

/-- C7.  Feeding `LogParser.parse` the stand-alone date line `"2015"`
only reseeds the event parser's rolling default to 2015-01-01 and opens
no block (no entry, `begin` still `None`); with the subsequent head
`"15 march: 9:00-12:00"` and a body line, the parse emits exactly one
block with `begin = 2015-03-15T09:00` and `until = 2015-03-15T12:00`. -/
theorem eC7 (today : DateTime) :
    LogParser.parseList (LogParser.init today) [] ["2015"] =
      ([], ⟨⟨⟨2015, 1, 1, 0, 0, 0, 0⟩⟩, none, none, []⟩, []) ∧
    LogParser.parseList (LogParser.init today) []
        ["2015", "15 march: 9:00-12:00", " - tested things"] =
      ([⟨some ⟨2015, 3, 15, 9, 0, 0, 0⟩, some ⟨2015, 3, 15, 12, 0, 0, 0⟩,
          " - tested things"⟩],
       ⟨⟨⟨2015, 3, 15, 0, 0, 0, 0⟩⟩, none, some ⟨2015, 3, 15, 12, 0, 0, 0⟩, []⟩, []) :=
  ⟨rfl, rfl⟩

/-- C10.  The rolling default of an `EventParser` always sits at
midnight: it does so at construction (both for the body parser's
today-seeded instance and for the log parser's January-1-seeded one),
and both `parse` and `parsedate` preserve the property in every case,
because a successful defaulting parse always stores
`d.replace(hour=0, minute=0, second=0, microsecond=0)`. -/
theorem eC10 :
    (∀ today : DateTime, atMidnight (EventParser.init today).default ∧
      atMidnight (LogParser.init today).ep.default) ∧
    (∀ (ep : EventParser) (s : String) (sd : Bool), atMidnight ep.default →
      atMidnight ((ep.parse s sd).2).default) ∧
    (∀ (ep : EventParser) (s : String), atMidnight ep.default →
      atMidnight ((ep.parsedate s).2).default) := by
  refine ⟨fun today => ⟨atMidnight_midnightOf today, ?_⟩, ?_, ?_⟩
  · exact ⟨rfl, rfl, rfl, rfl⟩
  · exact parse_preserves_midnight
  · exact parsedate_preserves_midnight

/-- Witness for C10: the preservation parts applied at a concrete
parser state and inputs, hypotheses discharged by computation. -/
theorem eC10_witness :
    atMidnight ((EventParser.parse ⟨⟨2015, 1, 1, 0, 0, 0, 0⟩⟩ "15 march" true).2).default ∧
    atMidnight ((EventParser.parsedate ⟨⟨2015, 1, 1, 0, 0, 0, 0⟩⟩ "15 march -- 16 march").2).default :=
  ⟨eC10.2.1 ⟨⟨2015, 1, 1, 0, 0, 0, 0⟩⟩ "15 march" true ⟨rfl, rfl, rfl, rfl⟩,
   eC10.2.2 ⟨⟨2015, 1, 1, 0, 0, 0, 0⟩⟩ "15 march -- 16 march" ⟨rfl, rfl, rfl, rfl⟩⟩

theorem parse_no_set_default (ep : EventParser) (t : String) :
    (ep.parse t false).2 = ep := by
  unfold EventParser.parse
  cases hd : dateutil_parse t ep.default <;> simp

/-- C4, counterexample.  Against the claim that a head with an invalid
time token is "demoted to ordinary body text for the currently open
block": in the run below the head `"16 march: 25:00-"` arrives while the
15-march block is open, yet that block is emitted with body `"b"` only —
the flush happens before the time is parsed — and the malformed line
instead ends up in the body of the NEXT block (the 17-march one). -/
theorem eC4_cex :
    logHeadMatch "16 march: 25:00-" = some ("16 march", "25:00", none) ∧
    parsetime "25:00" = Except.error PyErr.valueError ∧
    (LogParser.parseList (LogParser.init ⟨2026, 10, 12, 0, 0, 0, 0⟩) []
        ["2015", "15 march: 9:00-12:00", "b", "16 march: 25:00-",
         "17 march: 9:00-10:00"]).1 =
      [⟨some ⟨2015, 3, 15, 9, 0, 0, 0⟩, some ⟨2015, 3, 15, 12, 0, 0, 0⟩, "b"⟩,
       ⟨some ⟨2015, 3, 17, 9, 0, 0, 0⟩, some ⟨2015, 3, 17, 10, 0, 0, 0⟩,
         "16 march: 25:00-"⟩] :=
  ⟨rfl, rfl, rfl⟩

/-- C4, amended.  When a line matches the log-head pattern but its start
time is invalid, the parser first flushes any open block (emitting it
without the offending line), the date context is still consumed by the
event parser, the head opens no block (`begin` ends up `None`), the line
is appended to the body accumulation that will belong to the next
emitted block (or be dropped at end of input), `until` keeps its stale
value (`flush` resets a never-read `end` attribute instead), and parsing
continues with the remaining lines. -/
theorem eC4 (lp : LogParser) (acc : List Log) (line : String) (ls : List String)
    (d st : String) (en : Option String) (e : PyErr)
    (hdate : logDateMatch line = none) (hhead : logHeadMatch line = some (d, st, en))
    (htime : parsetime st = Except.error e) :
    LogParser.parseList lp acc (line :: ls) =
      LogParser.parseList
        ⟨(lp.ep.parse d true).2, none, lp.until_,
          (if lp.begin.isSome then [] else lp.logbody) ++ [line]⟩
        (acc ++ if lp.begin.isSome then [lp.flushLog] else []) ls := by
  have hne : line ≠ "" := by
    intro h
    rw [h] at hhead
    simp [logHeadMatch] at hhead
  rw [show LogParser.parseList lp acc (line :: ls) =
      LogParser.parseList (lp.step line).2 (acc ++ (lp.step line).1) ls from by
    simp [LogParser.parseList, hne]]
  cases hb : lp.begin.isSome with
  | true => simp [LogParser.step, hdate, hhead, htime, hb, LogParser.flushState]
  | false =>
    have hnone : lp.begin = none := Option.not_isSome_iff_eq_none.mp (by simp [hb])
    simp [LogParser.step, hdate, hhead, htime, hb, hnone, LogParser.flushState]

/-- Witness for C4: the amended step equation applied to a concrete
state with an open block and the malformed head line. -/
theorem eC4_witness :
    LogParser.parseList
        ⟨⟨⟨2015, 3, 15, 0, 0, 0, 0⟩⟩, some ⟨2015, 3, 15, 9, 0, 0, 0⟩,
          some ⟨2015, 3, 15, 12, 0, 0, 0⟩, ["b"]⟩ [] ["16 march: 25:00-"] =
      LogParser.parseList
        ⟨((⟨⟨⟨2015, 3, 15, 0, 0, 0, 0⟩⟩, some ⟨2015, 3, 15, 9, 0, 0, 0⟩,
            some ⟨2015, 3, 15, 12, 0, 0, 0⟩, ["b"]⟩ : LogParser).ep.parse "16 march" true).2,
          none,
          (⟨⟨⟨2015, 3, 15, 0, 0, 0, 0⟩⟩, some ⟨2015, 3, 15, 9, 0, 0, 0⟩,
            some ⟨2015, 3, 15, 12, 0, 0, 0⟩, ["b"]⟩ : LogParser).until_,
          (if (⟨⟨⟨2015, 3, 15, 0, 0, 0, 0⟩⟩, some ⟨2015, 3, 15, 9, 0, 0, 0⟩,
            some ⟨2015, 3, 15, 12, 0, 0, 0⟩, ["b"]⟩ : LogParser).begin.isSome then []
           else (⟨⟨⟨2015, 3, 15, 0, 0, 0, 0⟩⟩, some ⟨2015, 3, 15, 9, 0, 0, 0⟩,
            some ⟨2015, 3, 15, 12, 0, 0, 0⟩, ["b"]⟩ : LogParser).logbody) ++
            ["16 march: 25:00-"]⟩
        ([] ++ if (⟨⟨⟨2015, 3, 15, 0, 0, 0, 0⟩⟩, some ⟨2015, 3, 15, 9, 0, 0, 0⟩,
            some ⟨2015, 3, 15, 12, 0, 0, 0⟩, ["b"]⟩ : LogParser).begin.isSome then
            [(⟨⟨⟨2015, 3, 15, 0, 0, 0, 0⟩⟩, some ⟨2015, 3, 15, 9, 0, 0, 0⟩,
              some ⟨2015, 3, 15, 12, 0, 0, 0⟩, ["b"]⟩ : LogParser).flushLog]
          else []) [] :=
  eC4 _ [] "16 march: 25:00-" [] "16 march" "25:00" none PyErr.valueError rfl rfl rfl

/-- C2, counterexample.  The claim says a next-action list ends only at
an indent strictly below the FIRST body line's indent, so with body
indents 2, 5, 3 the indent-3 line should still belong to the list.  In
the code the threshold is updated to each consumed line's indent, so the
indent-3 line (3 < 5) ends the list and becomes freeform text instead:
the emitted `NextActions` block stops at the indent-5 line. -/
theorem eC2_cex :
    levOf "  a" = 2 ∧ levOf "     b" = 5 ∧ levOf "   c" = 3 ∧
    parse_body ⟨2026, 10, 12, 0, 0, 0, 0⟩ ["ctx:", "  a", "     b", "   c"] =
      [ActionBlock.nextActions (["ctx"].toFinset) ["ctx:", "  a", "     b"] none,
       ActionBlock.freeform ["   c"]] ∧
    "   c" ∉ ["ctx:", "  a", "     b"] :=
  ⟨rfl, rfl, rfl, rfl, by decide⟩

/-- C2, amended.  The body loop of `parse_next_action_list` consumes a
maximal star-free prefix whose indents never strictly decrease from one
consumed line to the next (the threshold is the PREVIOUS consumed line's
indent, updated at every step, not the first body line's); the list ends
at end of input, at a Star-marked line, or at the first line whose
indent is strictly below the previous consumed line's indent.  `acc`
holds the already-stored lines (the context-header text, when there is
one). -/
theorem eC2 (lines : List Line) (acc : List String) :
    ∃ taken rest, lines = taken ++ rest ∧
      nalLoop none acc lines = (acc ++ taken.map Line.line, rest) ∧
      List.Chain' (· ≤ ·) (taken.map Line.ind) ∧
      (∀ t ∈ taken, t.mark ≠ some '*') ∧
      (rest = [] ∨ ∃ r rs, rest = r :: rs ∧
        (r.mark = some '*' ∨ ∃ t, taken.getLast? = some t ∧ r.ind < t.ind)) :=
  nalLoop_none_spec lines acc

/-- Witness for C2: the characterisation applied to the concrete
classified lines of the counterexample body. -/
theorem eC2_witness :
    ∃ taken rest,
      [Line.mk 2 2 none "  a", Line.mk 3 5 none "     b", Line.mk 4 3 none "   c"] =
        taken ++ rest ∧
      nalLoop none ["ctx:"]
          [Line.mk 2 2 none "  a", Line.mk 3 5 none "     b", Line.mk 4 3 none "   c"] =
        (["ctx:"] ++ taken.map Line.line, rest) ∧
      List.Chain' (· ≤ ·) (taken.map Line.ind) ∧
      (∀ t ∈ taken, t.mark ≠ some '*') ∧
      (rest = [] ∨ ∃ r rs, rest = r :: rs ∧
        (r.mark = some '*' ∨ ∃ t, taken.getLast? = some t ∧ r.ind < t.ind)) :=
  eC2 [Line.mk 2 2 none "  a", Line.mk 3 5 none "     b", Line.mk 4 3 none "   c"] ["ctx:"]

/-- C5.  When a token contains the range separator (the leftmost
`\s*--\s*` match, here away from the token start), `parsedate` splits it
at the match span, parses the `since` side with the rolling default
updated and the `until` side without updating it (a `set_default=False`
parse returns the parser unchanged, second conjunct), and returns an
event with `allDay = False`; concretely,
`parsedate("15 march -- 16 march")` yields 15 March and 16 March of the
default's year, both at midnight, not all-day. -/
theorem eC5 :
    (∀ (ep : EventParser) (s : String) (p q : Nat),
        eventRangeSearch s = some (p, q) → 0 < p →
        ep.parsedate s =
          (some ⟨(ep.parse (strTake s p) true).1,
            ((ep.parse (strTake s p) true).2.parse (strDrop s q) false).1, false⟩,
           (ep.parse (strTake s p) true).2)) ∧
    (∀ (ep : EventParser) (t : String), (ep.parse t false).2 = ep) ∧
    (∀ today : DateTime,
        EventParser.parsedate (EventParser.init today) "15 march -- 16 march" =
          (some ⟨some ⟨today.year, 3, 15, 0, 0, 0, 0⟩,
            some ⟨today.year, 3, 16, 0, 0, 0, 0⟩, false⟩,
           ⟨⟨today.year, 3, 15, 0, 0, 0, 0⟩⟩)) := by
  refine ⟨?_, parse_no_set_default, fun today => rfl⟩
  intro ep s p q hr hp
  have hne : s.data.isEmpty = false := by
    cases hd : s.data with
    | nil =>
      unfold eventRangeSearch at hr
      rw [hd] at hr
      simp [eventRangeSearch.go] at hr
    | cons c cs => simp [hd]
  simp only [EventParser.parsedate, hne, Bool.false_eq_true, if_false, hr]
  rw [parse_no_set_default]

/-- Witness for C5: the range split applied to the concrete token
`"15 march -- 16 march"`, whose separator spans positions 8 to 12. -/
theorem eC5_witness :
    eventRangeSearch "15 march -- 16 march" = some (8, 12) ∧
    EventParser.parsedate ⟨⟨2026, 1, 1, 0, 0, 0, 0⟩⟩ "15 march -- 16 march" =
      (some ⟨(EventParser.parse ⟨⟨2026, 1, 1, 0, 0, 0, 0⟩⟩
          (strTake "15 march -- 16 march" 8) true).1,
        ((EventParser.parse ⟨⟨2026, 1, 1, 0, 0, 0, 0⟩⟩
          (strTake "15 march -- 16 march" 8) true).2.parse
            (strDrop "15 march -- 16 march" 12) false).1, false⟩,
       (EventParser.parse ⟨⟨2026, 1, 1, 0, 0, 0, 0⟩⟩
          (strTake "15 march -- 16 march" 8) true).2) :=
  ⟨rfl, eC5.1 ⟨⟨2026, 1, 1, 0, 0, 0, 0⟩⟩ "15 march -- 16 march" 8 12 rfl (by decide)⟩

/-- C6.  Blank-run indent assignment of the line classifier.  First
part: a maximal blank run followed by a non-blank line `L` (the lines
before the run end in a non-blank line, or there are none) is annotated
blank-for-blank with marker `' '` and indent `last_indent` when `L`'s
marker-excluded indent is at least the preceding line's indent
(`prevLev`), and indent 0 otherwise.  Second part: a trailing blank run
is annotated with indent 0 regardless of what precedes. -/
theorem eC6 :
    (∀ (first : Nat) (pre blanks rest : List String) (l : String),
        (∀ b ∈ blanks, isBlank b = true) → isBlank l = false →
        (pre = [] ∨ ∃ p, pre.getLast? = some p ∧ isBlank p = false) →
        ∃ out tail, out.length = pre.length ∧
          annotate_with_indent_and_markers (pre ++ blanks ++ l :: rest) first =
            out ++ (enumF (first + pre.length) blanks).map
              (fun b => ⟨b.1, (if mlevOf l ≥ prevLev pre then prevLev pre else 0),
                some ' ', b.2⟩) ++ tail) ∧
    (∀ (first : Nat) (pre blanks : List String),
        (∀ b ∈ blanks, isBlank b = true) →
        (pre = [] ∨ ∃ p, pre.getLast? = some p ∧ isBlank p = false) →
        ∃ out, out.length = pre.length ∧
          annotate_with_indent_and_markers (pre ++ blanks) first =
            out ++ (enumF (first + pre.length) blanks).map
              (fun b => ⟨b.1, 0, some ' ', b.2⟩)) := by
  constructor
  · intro first pre blanks rest l hb hl hpre
    rcases hpre with hpre | ⟨p, hlast, hnb⟩
    · subst hpre
      refine ⟨[], ⟨first + blanks.length, levOf l, markOf l, l⟩ ::
          annotateAux rest (first + blanks.length + 1) (levOf l) [], rfl, ?_⟩
      unfold annotate_with_indent_and_markers
      rw [List.nil_append, annotateAux_blanks blanks l rest first 0 [] hb hl]
      simp [prevLev]
    · obtain ⟨out, hlen, heq⟩ :=
        annotateAux_prefix pre p hlast hnb (blanks ++ l :: rest) first 0 []
      refine ⟨out, ⟨first + pre.length + blanks.length, levOf l, markOf l, l⟩ ::
          annotateAux rest (first + pre.length + blanks.length + 1) (levOf l) [],
          by simpa using hlen, ?_⟩
      unfold annotate_with_indent_and_markers
      rw [List.append_assoc, heq,
        annotateAux_blanks blanks l rest (first + pre.length) (levOf p) [] hb hl]
      have hpl : prevLev pre = levOf p := by simp [prevLev, hlast]
      rw [hpl]
      simp [List.append_assoc]
  · intro first pre blanks hb hpre
    rcases hpre with hpre | ⟨p, hlast, hnb⟩
    · subst hpre
      refine ⟨[], rfl, ?_⟩
      unfold annotate_with_indent_and_markers
      rw [List.nil_append, annotateAux_trailing blanks first 0 [] hb]
      simp
    · obtain ⟨out, hlen, heq⟩ := annotateAux_prefix pre p hlast hnb blanks first 0 []
      refine ⟨out, by simpa using hlen, ?_⟩
      unfold annotate_with_indent_and_markers
      rw [heq, annotateAux_trailing blanks (first + pre.length) (levOf p) [] hb]
      simp

/-- Witness for C6: both parts applied to a concrete document
`["a", "", "  ", "  b", "", ""]` seen as prefix `["a"]`, blank run
`["", "  "]`, following line `"  b"`, and as prefix
`["a", "", "  ", "  b"]` with trailing blank run `["", ""]`. -/
theorem eC6_witness :
    (∃ out tail, out.length = 1 ∧
      annotate_with_indent_and_markers (["a"] ++ ["", "  "] ++ "  b" :: ["", ""]) 1 =
        out ++ (enumF 2 ["", "  "]).map
          (fun b => ⟨b.1, (if mlevOf "  b" ≥ prevLev ["a"] then prevLev ["a"] else 0),
            some ' ', b.2⟩) ++ tail) ∧
    (∃ out, out.length = 4 ∧
      annotate_with_indent_and_markers (["a", "", "  ", "  b"] ++ ["", ""]) 1 =
        out ++ (enumF 5 ["", ""]).map (fun b => ⟨b.1, 0, some ' ', b.2⟩)) :=
  ⟨eC6.1 1 ["a"] ["", "  "] ["", ""] "  b" (by decide) (by decide)
      (Or.inr ⟨"a", rfl, by decide⟩),
   eC6.2 1 ["a", "", "  ", "  b"] ["", ""] (by decide)
      (Or.inr ⟨"  b", rfl, by decide⟩)⟩

/-- C8.  A zero-indent context header ending in `:`: the header text is
stripped of `" :\t"`, split on comma with adjacent whitespace, and every
token is tried as a date, events and context names accumulating in order
(first conjunct: the loop step of `parse_next_actions` reduces to
`splitHeader` followed by the list consumption seeded with the header
line).  Second conjunct: block emission yields exactly one eventless
block when no token parsed as an event, and exactly one block per parsed
event otherwise, in event order, all sharing the same lines.  Third and
fourth conjuncts: the spec's `"home, work:"` example (one block,
contexts `home`/`work`, no event) and a two-event header (two blocks in
order, same lines, distinct events). -/
theorem eC8 :
    (∀ (fuel : Nat) (ep : EventParser) (parsed : List ActionBlock)
        (ln : Line) (rest : List Line),
        ln.mark ≠ some '*' → ln.ind = 0 → endsWithColon ln.line = true →
        parseNextActionsF (fuel + 1) ep parsed (ln :: rest) =
          parseNextActionsF fuel (splitHeader ep ln.line).2.2
            (parsed ++ mkNABlocks (splitHeader ep ln.line).1.toFinset
              (splitHeader ep ln.line).2.1 (nalLoop none [ln.line] rest).1)
            (nalLoop none [ln.line] rest).2) ∧
    (∀ (cs : Finset String) (evs : List Event) (ls : List String),
        (mkNABlocks cs evs ls).length = max 1 evs.length ∧
        (evs = [] → mkNABlocks cs evs ls = [ActionBlock.nextActions cs ls none]) ∧
        (∀ (i : Nat), i < evs.length → (mkNABlocks cs evs ls)[i]? =
          some (ActionBlock.nextActions cs ls evs[i]?))) ∧
    (∀ today : DateTime,
        parse_body today ["home, work:", "  - x"] =
          [ActionBlock.nextActions (["home", "work"].toFinset)
            ["home, work:", "  - x"] none]) ∧
    (∀ today : DateTime,
        parse_body today ["2015, 2016, stuff:", "  - x"] =
          [ActionBlock.nextActions (["stuff"].toFinset) ["2015, 2016, stuff:", "  - x"]
            (some ⟨some ⟨2015, today.month, today.day, 0, 0, 0, 0⟩, none, true⟩),
           ActionBlock.nextActions (["stuff"].toFinset) ["2015, 2016, stuff:", "  - x"]
            (some ⟨some ⟨2016, today.month, today.day, 0, 0, 0, 0⟩, none, true⟩)]) := by
  refine ⟨?_, ?_, fun today => rfl, fun today => rfl⟩
  · intro fuel ep parsed ln rest h1 h2 h3
    simp [parseNextActionsF, h1, h2, h3]
  · intro cs evs ls
    refine ⟨?_, ?_, ?_⟩
    · cases evs with
      | nil => simp [mkNABlocks]
      | cons e es => simp [mkNABlocks]
    · intro h; simp [mkNABlocks, h]
    · intro i hi
      have hne : ¬ evs.isEmpty := by
        cases evs with
        | nil => simp at hi
        | cons e es => simp
      simp [mkNABlocks, hne, List.getElem?_map,
        List.getElem?_eq_getElem hi]

/-- Witness for C8: the header-branch step equation applied to the
concrete header line `"home, work:"` with one body line. -/
theorem eC8_witness :
    parseNextActionsF 2 ⟨⟨2026, 1, 1, 0, 0, 0, 0⟩⟩ []
        [Line.mk 1 0 none "home, work:", Line.mk 2 4 (some '-') "  - x"] =
      parseNextActionsF 1
        (splitHeader ⟨⟨2026, 1, 1, 0, 0, 0, 0⟩⟩ "home, work:").2.2
        ([] ++ mkNABlocks (splitHeader ⟨⟨2026, 1, 1, 0, 0, 0, 0⟩⟩ "home, work:").1.toFinset
          (splitHeader ⟨⟨2026, 1, 1, 0, 0, 0, 0⟩⟩ "home, work:").2.1
          (nalLoop none ["home, work:"] [Line.mk 2 4 (some '-') "  - x"]).1)
        (nalLoop none ["home, work:"] [Line.mk 2 4 (some '-') "  - x"]).2 :=
  eC8.1 1 ⟨⟨2026, 1, 1, 0, 0, 0, 0⟩⟩ [] (Line.mk 1 0 none "home, work:")
    [Line.mk 2 4 (some '-') "  - x"] (by decide) rfl rfl

theorem indentScan_marker_some (cs : List Char) :
    ∀ (lev mlev : Nat) (m : Char), (indentScan cs lev mlev (some m)).2.2 = some m := by
  induction cs with
  | nil => intro lev mlev m; rfl
  | cons c cs ih =>
    intro lev mlev m
    simp only [indentScan]
    split
    · exact ih _ _ _
    · split
      · exact ih _ _ _
      · split
        · simp_all
        · rfl

/-- C9.  First conjunct: a non-blank line carries the Star marker
exactly when its first character after the indentation whitespace is
`*`.  Second and third conjuncts: both the next-actions loop and an
in-progress next-action list stop at a Star-marked line without
consuming it.  Fourth conjunct: whenever the next-actions pass leaves
lines unconsumed, the first of them is Star-marked and they form a
suffix of the input.  Fifth conjunct: the someday/maybe block then
consists of that exact line followed by every remaining line verbatim. -/
theorem eC9 :
    (∀ (cs : List Char) (lev mlev : Nat),
        ((indentScan cs lev mlev none).2.2 = some '*' ↔
          (cs.dropWhile isIndentWS).head? = some '*')) ∧
    (∀ (ep : EventParser) (parsed : List ActionBlock) (ln : Line) (rest : List Line),
        ln.mark = some '*' →
        parseNextActions ep parsed (ln :: rest) = (parsed, ln :: rest)) ∧
    (∀ (li : Option Nat) (acc : List String) (ln : Line) (rest : List Line),
        ln.mark = some '*' → nalLoop li acc (ln :: rest) = (acc, ln :: rest)) ∧
    (∀ (ep : EventParser) (lines : List Line) (p : List ActionBlock) (r : List Line),
        parseNextActions ep [] lines = (p, r) → r ≠ [] →
        (∃ ln rs, r = ln :: rs ∧ ln.mark = some '*') ∧ r <:+ lines) ∧
    (∀ (ep : EventParser) (lines : List Line) (p : List ActionBlock)
        (ln : Line) (rs : List Line),
        parseNextActions ep [] lines = (p, ln :: rs) →
        parseBodyAnn ep lines =
          p ++ [ActionBlock.somedayMaybe (ln.line :: rs.map Line.line)]) := by
  refine ⟨?_, ?_, ?_, ?_, ?_⟩
  · intro cs
    induction cs with
    | nil => intro lev mlev; simp [indentScan]
    | cons c cs ih =>
      intro lev mlev
      by_cases hsp : c = ' '
      · subst hsp
        simpa [indentScan, isIndentWS] using ih (lev + 1) mlev
      · by_cases htb : c = '\t'
        · subst htb
          simpa [indentScan, isIndentWS] using ih (lev + 8) mlev
        · by_cases hm : c = '*' ∨ c = '-'
          · rcases hm with hm | hm <;> subst hm <;>
              simp [indentScan, isIndentWS, indentScan_marker_some]
          · push_neg at hm
            have hni : isIndentWS c = false := by
              simp [isIndentWS, hsp, htb]
            simp [indentScan, hsp, htb, hm.1, hm.2, hni]
  · intro ep parsed ln rest h
    simp [parseNextActions, parseNextActionsF, h]
  · intro li acc ln rest h
    simp [nalLoop, h]
  · intro ep lines p r hpar hne
    have h := pnaF_rest_star (lines.length + 1) ep [] lines (Nat.lt_succ_self _)
    rw [show parseNextActionsF (lines.length + 1) ep [] lines = (p, r) from hpar] at h
    rcases h with h | ⟨ln, rs, he, hm, hs⟩
    · exact absurd h hne
    · have he' : r = ln :: rs := he
      exact ⟨⟨ln, rs, he', hm⟩, he' ▸ hs⟩
  · intro ep lines p ln rs hpar
    simp [parseBodyAnn, hpar]

/-- Witness for C9: the star line `" * someday"` terminates the pass at
itself, and the someday/maybe block of a concrete body starts with it. -/
theorem eC9_witness :
    ((indentScan (" * someday".data) 0 0 none).2.2 = some '*' ↔
      ((" * someday".data).dropWhile isIndentWS).head? = some '*') ∧
    parseNextActions ⟨⟨2026, 1, 1, 0, 0, 0, 0⟩⟩ [ActionBlock.freeform ["x"]]
        [Line.mk 2 2 (some '*') " * someday", Line.mk 3 0 none "tail"] =
      ([ActionBlock.freeform ["x"]],
       [Line.mk 2 2 (some '*') " * someday", Line.mk 3 0 none "tail"]) :=
  ⟨eC9.1 (" * someday".data) 0 0,
   eC9.2.1 ⟨⟨2026, 1, 1, 0, 0, 0, 0⟩⟩ [ActionBlock.freeform ["x"]]
     (Line.mk 2 2 (some '*') " * someday") [Line.mk 3 0 none "tail"] rfl⟩

end Egt
